import Mathlib

/-!
Verification of the widget-rendering core of the tui repository
(src/widgets/block.rs, src/widgets/barchart.rs, src/widgets/sparkline.rs).

The Rust code is shallowly embedded: machine integers become Nat, with an
explicit reduction modulo 2 ^ 16 or 2 ^ 64 at the operations where the source
performs u16 or u64 arithmetic that can wrap (release-profile Rust semantics:
overflowing add and mul wrap; division by zero always panics).  A render
function that can panic returns an Option, with none standing for the panic.
Buffer writes are modelled as an explicit log of cell and string writes,
since the buffer itself (buffer.rs) is an external collaborator of this core.

External collaborators not part of the three embedded files are modelled from
the specification at their interface: the rectangle type (layout.rs), the
glyph ramp (symbols.rs) and the string-writing buffer operations (buffer.rs).
-/

set_option autoImplicit false

/-- Modulus of 16-bit unsigned arithmetic. -/
def U16 : Nat := 2 ^ 16

/-- Modulus of 64-bit unsigned arithmetic. -/
def U64 : Nat := 2 ^ 64

/-- Modelled from the spec: the Frame rectangle of layout.rs (x, y, width,
height in grid-cell units), an external collaborator of this core. -/
structure Rect where
  x : Nat
  y : Nat
  width : Nat
  height : Nat
deriving Repr, DecidableEq

def Rect.left (r : Rect) : Nat := r.x

def Rect.right (r : Rect) : Nat := r.x + r.width

def Rect.top (r : Rect) : Nat := r.y

def Rect.bottom (r : Rect) : Nat := r.y + r.height

def Rect.area (r : Rect) : Nat := r.width * r.height

/-- The Borders bitflags of the repository, as four independent booleans. -/
structure Borders where
  left : Bool
  right : Bool
  top : Bool
  bottom : Bool
deriving Repr, DecidableEq

/-- BorderType from block.rs: selects which opaque glyph table is used. -/
inductive BorderType
  | plain
  | rounded
  | double
  | thick
deriving Repr, DecidableEq

/-- The member of the line-glyph table that a border write selects.  The
tables themselves (symbols.rs) are opaque lookup tables; only which member is
written matters to the claims. -/
inductive Glyph
  | vertical
  | horizontal
  | topLeft
  | topRight
  | bottomLeft
  | bottomRight
deriving Repr, DecidableEq

/-- A single buffer cell write of a border glyph. -/
structure CellWrite where
  x : Nat
  y : Nat
  glyph : Glyph
deriving Repr, DecidableEq

/-- A single buffer cell write of a bar glyph; level is the clamped index
into the nine-level glyph ramp (0 empty .. 8 full). -/
structure BarCell where
  x : Nat
  y : Nat
  level : Nat
deriving Repr, DecidableEq

/-- Modelled from the spec: a string write issued to the buffer collaborator
(set_string, set_stringn or set_spans of buffer.rs).  idx records which data
entry the write belongs to, x and y the starting cell, and span the number of
cell columns the buffer will fill (the string display width, truncated to the
given limit for set_stringn and set_spans). -/
structure StrWrite where
  idx : Nat
  x : Nat
  y : Nat
  str : String
  span : Nat
deriving Repr, DecidableEq

/-- Block from block.rs.  The title Spans value is modelled as a String whose
display width is its length (the claims only use presence and width). -/
structure Block where
  title : Option String
  borders : Borders
  borderType : BorderType
deriving Repr, DecidableEq

/-- Block::inner from block.rs lines 123-140: saturating u16 arithmetic is
Nat truncated subtraction; the x and y growth is clamped by min with the
right and bottom edges, evaluated before the assignment as in the source. -/
def Block.inner (b : Block) (area : Rect) : Rect :=
  let i1 :=
    if b.borders.left then
      { area with x := min (area.x + 1) area.right, width := area.width - 1 }
    else area
  let i2 :=
    if b.borders.top || b.title.isSome then
      { i1 with y := min (i1.y + 1) i1.bottom, height := i1.height - 1 }
    else i1
  let i3 :=
    if b.borders.right then { i2 with width := i2.width - 1 } else i2
  if b.borders.bottom then { i3 with height := i3.height - 1 } else i3

/-- The effect of Block::render on the buffer: the whole-area style fill, the
border-glyph cell writes in source order, and the title write if any. -/
structure BlockOut where
  fill : Option Rect
  cellWrites : List CellWrite
  titleWrite : Option StrWrite
deriving Repr, DecidableEq

/-- Block::render from block.rs lines 144-219.  A zero-area rectangle returns
immediately.  Edges write their line glyph along every cell of the edge; a
corner glyph is written only when both adjacent edge flags are set; the title
is written at the top, offset by one if LEFT is present, truncated to the
width that remains after LEFT and RIGHT. -/
def Block.render (b : Block) (area : Rect) : BlockOut :=
  if area.area = 0 then ⟨none, [], none⟩
  else
    let leftWrites : List CellWrite :=
      if b.borders.left then
        (List.range area.height).map (fun j => ⟨area.left, area.top + j, Glyph.vertical⟩)
      else []
    let topWrites : List CellWrite :=
      if b.borders.top then
        (List.range area.width).map (fun i => ⟨area.left + i, area.top, Glyph.horizontal⟩)
      else []
    let rightWrites : List CellWrite :=
      if b.borders.right then
        (List.range area.height).map (fun j => ⟨area.right - 1, area.top + j, Glyph.vertical⟩)
      else []
    let bottomWrites : List CellWrite :=
      if b.borders.bottom then
        (List.range area.width).map (fun i => ⟨area.left + i, area.bottom - 1, Glyph.horizontal⟩)
      else []
    let cornerBR : List CellWrite :=
      if b.borders.right && b.borders.bottom then
        [⟨area.right - 1, area.bottom - 1, Glyph.bottomRight⟩]
      else []
    let cornerTR : List CellWrite :=
      if b.borders.right && b.borders.top then
        [⟨area.right - 1, area.top, Glyph.topRight⟩]
      else []
    let cornerBL : List CellWrite :=
      if b.borders.left && b.borders.bottom then
        [⟨area.left, area.bottom - 1, Glyph.bottomLeft⟩]
      else []
    let cornerTL : List CellWrite :=
      if b.borders.left && b.borders.top then
        [⟨area.left, area.top, Glyph.topLeft⟩]
      else []
    let titleWrite : Option StrWrite :=
      match b.title with
      | some t =>
        let lx : Nat := if b.borders.left then 1 else 0
        let rx : Nat := if b.borders.right then 1 else 0
        let w := area.width - lx - rx
        some ⟨0, area.left + lx, area.top, t, min t.length w⟩
      | none => none
    ⟨some area,
      leftWrites ++ topWrites ++ rightWrites ++ bottomWrites
        ++ cornerBR ++ cornerTR ++ cornerBL ++ cornerTL,
      titleWrite⟩

/-- The enumerate combinator of Rust iterators, indexing from n. -/
def withIdx {α : Type} (n : Nat) : List α → List (Nat × α)
  | [] => []
  | a :: as => (n, a) :: withIdx (n + 1) as

/-- The per-row update of the remaining scaled height in the bar loops: d is
decreased by 8, floored at 0 (barchart.rs lines 182-186, sparkline.rs lines
104-108). -/
def stepDown (d : Nat) : Nat := if d > 8 then d - 8 else 0

/-- Modelled from the spec: the GlyphRamp lookup symbols bar Set symbol of
symbols.rs, an external collaborator.  The written glyph represents the level
clamped into 0..8 eighths (levels of at least 8 map to the full block). -/
def barSymbol (d : Nat) : Nat := min d 8

/-- The glyph level written for a column of initial scaled height d at the
r-th painted row counted from the bottom of the paintable region. -/
def levelAt (d r : Nat) : Nat := barSymbol (stepDown^[r] d)

/-- The bottom-up sequence of glyph levels a column of scaled height d
receives over its paintable rows. -/
def colLevels (rows d : Nat) : List Nat :=
  (List.range rows).map (fun r => levelAt d r)

/-- The cell writes of one bar of scaled height d: for every paintable row
(r counted bottom-up, written at y0 + rows - 1 - r as in the source loops)
and each of the w columns of the bar, the ramp glyph of the remaining
height. -/
def barColumnWrites (x0 y0 w rows d : Nat) : List BarCell :=
  (List.range rows).flatMap (fun r =>
    (List.range w).map (fun xo => ⟨x0 + xo, y0 + (rows - 1 - r), levelAt d r⟩))

/-- BarChart from barchart.rs.  Style fields are opaque and omitted.  The
values cache (the pre-formatted decimal strings) is not a separate field:
the data field is private in the source and set_data always rebuilds the
cache as the decimal rendering of each value, so the cache entry for value v
is Nat.repr v by construction. -/
structure BarChart where
  block : Option Block
  barWidth : Nat
  barGap : Nat
  max : Option Nat
  data : List (String × Nat)
deriving Repr, DecidableEq

/-- The default BarChart configuration: bar width 1, bar gap 1, no block, no
explicit maximum, empty data. -/
def BarChart.default : BarChart :=
  ⟨none, 1, 1, none, []⟩

/-- The resolved maximum of BarChart::render (line 151-153): the explicit max
if set, else the maximum value in the data, 0 for empty data. -/
def BarChart.resolvedMax (c : BarChart) : Nat :=
  match c.max with
  | some m => m
  | none => ((c.data.map (fun p => p.2)).max?).getD 0

/-- The working area of BarChart::render: the inner rectangle of the attached
block if any, else the whole target area (lines 138-145). -/
def BarChart.chartArea (c : BarChart) (area : Rect) : Rect :=
  match c.block with
  | some b => b.inner area
  | none => area

/-- The u64 scaling of one bar value (barchart.rs line 165): value times
(working height - 1) times 8, each multiplication wrapping modulo 2 ^ 64,
divided (truncating) by the resolved maximum floored at 1. -/
def scaleBar (v rows m : Nat) : Nat :=
  ((v * rows) % U64 * 8) % U64 / max m 1

/-- The effect of BarChart::render on the buffer: the whole-area style fill,
the block effect if a block is attached, the working area, the scaled data
vector of line 158-168, and the bar-glyph, value-string and label-string
writes. -/
structure BarOut where
  fill : Rect
  blockOut : Option BlockOut
  chartArea : Rect
  scaled : List (String × Nat)
  barWrites : List BarCell
  valueWrites : List StrWrite
  labelWrites : List StrWrite
deriving Repr, DecidableEq

/-- The output of BarChart::render when the working height is below 2: only
the background fill and the block painting happen (lines 147-149). -/
def BarChart.emptyOut (c : BarChart) (area : Rect) : BarOut :=
  ⟨area, c.block.map (fun b => b.render area), c.chartArea area, [], [], [], []⟩

/-- The output of BarChart::render on its main path, for a working area of
height at least 2 and a nonzero wrapped bar step wg = (bar_width + bar_gap)
mod 2 ^ 16.  Bar i starts at column left + i * wg; its value string (the
decimal rendering of the value, display width its digit count) is written
centered on the row above the label row only when the value is nonzero and
its width is strictly below bar_width; its label is written on the bottom
row truncated to bar_width columns (buffer set_stringn). -/
def BarChart.mainOut (c : BarChart) (area : Rect) (wg : Nat) : BarOut :=
  let chartArea := c.chartArea area
  let m := c.resolvedMax
  let maxIndex := min (chartArea.width / wg) c.data.length
  let rows := chartArea.height - 1
  let scaled := (c.data.take maxIndex).map (fun p => (p.1, scaleBar p.2 rows m))
  let barWrites := (withIdx 0 scaled).flatMap (fun q =>
    barColumnWrites (chartArea.left + q.1 * wg) chartArea.top c.barWidth rows q.2.2)
  let valueWrites := (withIdx 0 (c.data.take maxIndex)).filterMap (fun q =>
    if q.2.2 ≠ 0 then
      if (Nat.repr q.2.2).length < c.barWidth then
        some ⟨q.1,
          chartArea.left + q.1 * wg + (c.barWidth - (Nat.repr q.2.2).length) / 2,
          chartArea.bottom - 2, Nat.repr q.2.2, (Nat.repr q.2.2).length⟩
      else none
    else none)
  let labelWrites := (withIdx 0 (c.data.take maxIndex)).map (fun q =>
    ⟨q.1, chartArea.left + q.1 * wg, chartArea.bottom - 1, q.2.1,
      min q.2.1.length c.barWidth⟩)
  ⟨area, c.block.map (fun b => b.render area), chartArea,
    scaled, barWrites, valueWrites, labelWrites⟩

/-- BarChart::render from barchart.rs lines 135-213.  The bar step
bar_width + bar_gap is computed in u16 and so wraps modulo 2 ^ 16; when the
wrapped sum is 0 the division on line 155 is a u16 division by zero, which
panics: the render returns none. -/
def BarChart.render (c : BarChart) (area : Rect) : Option BarOut :=
  if (c.chartArea area).height < 2 then some (c.emptyOut area)
  else
    let wg := (c.barWidth + c.barGap) % U16
    if wg = 0 then none
    else some (c.mainOut area wg)

/-- Sparkline from sparkline.rs.  Style fields are opaque and omitted. -/
structure Sparkline where
  block : Option Block
  data : List Nat
  max : Option Nat
deriving Repr, DecidableEq

/-- The default Sparkline configuration. -/
def Sparkline.default : Sparkline :=
  ⟨none, [], none⟩

/-- The working area of Sparkline::render (lines 67-74). -/
def Sparkline.sparkArea (s : Sparkline) (area : Rect) : Rect :=
  match s.block with
  | some b => b.inner area
  | none => area

/-- The resolved maximum of Sparkline::render (lines 80-83): the explicit max
if set, else the maximum of the data, with default 1 for empty data. -/
def Sparkline.resolvedMax (s : Sparkline) : Nat :=
  match s.max with
  | some v => v
  | none => (s.data.max?).getD 1

/-- The u64 scaling of one sparkline value (lines 89-95): guarded by the
explicit zero-max check of the source; the products wrap modulo 2 ^ 64. -/
def scaleSpark (v h m : Nat) : Nat :=
  if m ≠ 0 then ((v * h) % U64 * 8) % U64 / m else 0

/-- The effect of Sparkline::render on the buffer.  There is no whole-area
background fill: the source render never calls set_style on the area. -/
structure SparkOut where
  blockOut : Option BlockOut
  sparkArea : Rect
  scaled : List Nat
  cellWrites : List BarCell
deriving Repr, DecidableEq

/-- Sparkline::render from sparkline.rs lines 66-111.  The function is total:
the only division is guarded by the max-nonzero check, so no input panics.
Point i occupies the single column at offset i of the working area and is
painted over the entire working height. -/
def Sparkline.render (s : Sparkline) (area : Rect) : SparkOut :=
  let sparkArea := s.sparkArea area
  let blockOut := s.block.map (fun b => b.render area)
  if sparkArea.height < 1 then ⟨blockOut, sparkArea, [], []⟩
  else
    let m := s.resolvedMax
    let maxIndex := min sparkArea.width s.data.length
    let scaled := (s.data.take maxIndex).map (fun v => scaleSpark v sparkArea.height m)
    let cellWrites := (withIdx 0 scaled).flatMap (fun q =>
      barColumnWrites (sparkArea.left + q.1) sparkArea.top 1 sparkArea.height q.2)
    ⟨blockOut, sparkArea, scaled, cellWrites⟩

/-- The resolved maximum of BarChart in the words of the claim: the explicit
max when set, otherwise the maximum value in the data, 0 for empty data. -/
def specResolvedMax (c : BarChart) : Nat :=
  match c.max with
  | some m => m
  | none => (c.data.map (fun p => p.2)).foldr max 0

/-- The scaling formula in the words of the claim: value times
(working height - 1) times 8, divided by max(1, resolved max), in exact
(unbounded) integer arithmetic with truncating division. -/
def specScale (v rows m : Nat) : Nat := v * rows * 8 / max 1 m

lemma stepDown_eq (d : Nat) : stepDown d = d - 8 := by
  simp only [stepDown]
  split <;> omega

lemma stepDown_iterate (r d : Nat) : stepDown^[r] d = d - 8 * r := by
  induction r generalizing d with
  | zero => simp
  | succ r ih =>
    rw [Function.iterate_succ_apply, ih, stepDown_eq]
    omega

lemma length_withIdx {α : Type} (n : Nat) (l : List α) :
    (withIdx n l).length = l.length := by
  induction l generalizing n with
  | nil => rfl
  | cons a as ih => simp [withIdx, ih]

lemma mem_withIdx {α : Type} {p : Nat × α} :
    ∀ {l : List α} {n : Nat}, p ∈ withIdx n l ↔ ∃ i, p.1 = n + i ∧ l[i]? = some p.2
  | [], n => by simp [withIdx]
  | a :: as, n => by
    simp only [withIdx, List.mem_cons]
    constructor
    · rintro (rfl | h)
      · exact ⟨0, rfl, by simp⟩
      · obtain ⟨i, hi, hget⟩ := mem_withIdx.mp h
        exact ⟨i + 1, by omega, by simpa using hget⟩
    · rintro ⟨i, hi, hget⟩
      cases i with
      | zero =>
        left
        obtain ⟨p1, p2⟩ := p
        simp only [List.getElem?_cons_zero, Option.some.injEq] at hget
        simp at hi
        simp [hi, hget]
      | succ i =>
        right
        refine mem_withIdx.mpr ⟨i, by omega, ?_⟩
        simpa using hget

lemma mem_withIdx_zero {α : Type} {p : Nat × α} {l : List α} :
    p ∈ withIdx 0 l ↔ l[p.1]? = some p.2 := by
  rw [mem_withIdx]
  constructor
  · rintro ⟨i, hi, hget⟩
    simp only [Nat.zero_add] at hi
    rwa [hi]
  · intro h
    exact ⟨p.1, by omega, h⟩

lemma colLevels_sum (rows d : Nat) : (colLevels rows d).sum = min d (8 * rows) := by
  induction rows with
  | zero => simp [colLevels]
  | succ rows ih =>
    have h : colLevels (rows + 1) d = colLevels rows d ++ [levelAt d rows] := by
      simp [colLevels, List.range_succ]
    rw [h, List.sum_append, ih]
    simp only [levelAt, barSymbol, stepDown_iterate, List.sum_cons, List.sum_nil]
    omega

lemma levelAt_partial_unique {d r1 r2 : Nat}
    (h1 : 0 < levelAt d r1) (h2 : levelAt d r1 < 8)
    (h3 : 0 < levelAt d r2) (h4 : levelAt d r2 < 8) : r1 = r2 := by
  simp only [levelAt, barSymbol, stepDown_iterate] at h1 h2 h3 h4
  omega

lemma levelAt_full_below {d r1 r2 : Nat} (hlt : r2 < r1) (h1 : 0 < levelAt d r1) :
    levelAt d r2 = 8 := by
  simp only [levelAt, barSymbol, stepDown_iterate] at h1 ⊢
  omega

lemma levelAt_zero (r : Nat) : levelAt 0 r = 0 := by
  simp [levelAt, barSymbol, stepDown_iterate]

lemma max?_getD_eq_foldr (l : List Nat) : (l.max?).getD 0 = l.foldr max 0 := by
  have key : ∀ (as : List Nat) (a : Nat), as.foldl max a = max a (as.foldr max 0) := by
    intro as
    induction as with
    | nil => intro a; simp
    | cons b bs ih =>
      intro a
      simp only [List.foldl_cons, List.foldr_cons, ih]
      omega
  cases l with
  | nil => rfl
  | cons a as => simp [List.max?, key]

lemma scaleBar_eq_single_mod (v rows m : Nat) :
    scaleBar v rows m = (v * rows * 8) % U64 / max 1 m := by
  unfold scaleBar
  rw [max_comm]
  congr 1
  conv_rhs => rw [Nat.mul_mod]
  have h8 : (8 : Nat) % U64 = 8 := by decide
  rw [h8]

lemma bar_step_bound {i wg width xo w : Nat} (hwg : 0 < wg) (hw : w ≤ wg)
    (hi : i < width / wg) (hxo : xo < w) : i * wg + xo < width := by
  have h1 : (i + 1) * wg ≤ width := (Nat.le_div_iff_mul_le hwg).mp hi
  have h2 : (i + 1) * wg = i * wg + wg := by ring
  omega

set_option maxHeartbeats 1600000 in
/-- C2: for every combination of BorderFlags, title presence and input
rectangle, Block::inner returns a rectangle whose right and bottom edges do
not exceed the input's, whose x and y stay clamped to the input's right and
bottom, and whose width and height never exceed the input's (the saturating
subtractions cannot underflow). -/
theorem block_inner_bounded (b : Block) (area : Rect) :
    (b.inner area).right ≤ area.right ∧ (b.inner area).bottom ≤ area.bottom ∧
    (b.inner area).x ≤ area.right ∧ (b.inner area).y ≤ area.bottom ∧
    (b.inner area).width ≤ area.width ∧ (b.inner area).height ≤ area.height := by
  obtain ⟨tt, ⟨bl, br, bt, bb⟩, bty⟩ := b
  obtain ⟨ax, ay, aw, ah⟩ := area
  cases bl <;> cases br <;> cases bt <;> cases bb <;> cases tt <;>
    simp [Block.inner, Rect.right, Rect.bottom] <;> omega

set_option maxHeartbeats 1600000 in
/-- C7: for every BorderFlags set, every BorderType and every rectangle,
Block::render writes a corner glyph at a corner position only when both
adjacent edge flags are set; and with the RIGHT flag alone every glyph cell
write is the plain vertical glyph, which occupies both right corner cells of
any non-zero-area rectangle. -/
theorem block_corner_rule :
    (∀ (b : Block) (area : Rect) (wr : CellWrite), wr ∈ (b.render area).cellWrites →
      (wr.glyph = Glyph.bottomRight →
        b.borders.right = true ∧ b.borders.bottom = true ∧
        wr.x = area.right - 1 ∧ wr.y = area.bottom - 1) ∧
      (wr.glyph = Glyph.topRight →
        b.borders.right = true ∧ b.borders.top = true ∧
        wr.x = area.right - 1 ∧ wr.y = area.top) ∧
      (wr.glyph = Glyph.bottomLeft →
        b.borders.left = true ∧ b.borders.bottom = true ∧
        wr.x = area.left ∧ wr.y = area.bottom - 1) ∧
      (wr.glyph = Glyph.topLeft →
        b.borders.left = true ∧ b.borders.top = true ∧
        wr.x = area.left ∧ wr.y = area.top)) ∧
    (∀ (b : Block) (area : Rect) (wr : CellWrite),
      b.borders = ⟨false, true, false, false⟩ →
      wr ∈ (b.render area).cellWrites → wr.glyph = Glyph.vertical) ∧
    (∀ (b : Block) (area : Rect),
      b.borders = ⟨false, true, false, false⟩ → 0 < area.area →
      CellWrite.mk (area.right - 1) area.top Glyph.vertical ∈ (b.render area).cellWrites ∧
      CellWrite.mk (area.right - 1) (area.bottom - 1) Glyph.vertical ∈
        (b.render area).cellWrites) := by
  refine ⟨?_, ?_, ?_⟩
  · intro b area wr hmem
    rw [Block.render] at hmem
    split at hmem
    · simp at hmem
    · dsimp only at hmem
      simp only [List.mem_append] at hmem
      rcases hmem with ((((((h | h) | h) | h) | h) | h) | h) | h <;>
        split at h <;>
        simp only [List.mem_map, List.mem_range, List.mem_singleton,
          List.not_mem_nil] at h <;>
        first
          | (obtain ⟨j, hj, rfl⟩ := h; simp; done)
          | (subst h; simp_all [Bool.and_eq_true])
  · intro b area wr hbord hmem
    obtain ⟨tt, bords, bty⟩ := b
    simp only at hbord
    subst hbord
    by_cases h0 : area.area = 0
    · simp [Block.render, h0] at hmem
    · simp [Block.render, h0] at hmem
      obtain ⟨j, hj, rfl⟩ := hmem
      rfl
  · intro b area hbord hpos
    obtain ⟨tt, bords, bty⟩ := b
    simp only at hbord
    subst hbord
    have hne : ¬area.area = 0 := by omega
    have hh : 0 < area.height := by
      rcases Nat.eq_zero_or_pos area.height with h | h
      · exfalso; rw [Rect.area, h] at hpos; omega
      · exact h
    have hcw : ((Block.mk tt ⟨false, true, false, false⟩ bty).render area).cellWrites =
        (List.range area.height).map
          (fun j => CellWrite.mk (area.right - 1) (area.top + j) Glyph.vertical) := by
      simp [Block.render, hne]
    rw [hcw]
    constructor
    · exact List.mem_map.mpr ⟨0, List.mem_range.mpr hh, by simp⟩
    · refine List.mem_map.mpr ⟨area.height - 1, List.mem_range.mpr (by omega), ?_⟩
      simp only [Rect.bottom, Rect.top, CellWrite.mk.injEq]
      exact ⟨trivial, by omega, trivial⟩

/-- Witness for C7: a block with all four borders on a 3 by 3 rectangle
writes the bottom-right corner glyph at position (2, 2), and both adjacent
flags are indeed set; a block with only the RIGHT border writes the plain
vertical glyph at both right corner cells. -/
theorem block_corner_rule_witness :
    ((Block.mk none ⟨true, true, true, true⟩ BorderType.plain).borders.right = true ∧
      (Block.mk none ⟨true, true, true, true⟩ BorderType.plain).borders.bottom = true ∧
      (2 : Nat) = (Rect.mk 0 0 3 3).right - 1 ∧
      (2 : Nat) = (Rect.mk 0 0 3 3).bottom - 1) ∧
    CellWrite.mk 1 0 Glyph.vertical ∈
      ((Block.mk none ⟨false, true, false, false⟩ BorderType.plain).render
        (Rect.mk 0 0 2 2)).cellWrites := by
  constructor
  · exact (block_corner_rule.1 (Block.mk none ⟨true, true, true, true⟩ BorderType.plain)
      (Rect.mk 0 0 3 3) (CellWrite.mk 2 2 Glyph.bottomRight) (by decide)).1 rfl
  · exact (block_corner_rule.2.2 (Block.mk none ⟨false, true, false, false⟩
      BorderType.plain) (Rect.mk 0 0 2 2) rfl (by decide)).1

/-- Counterexample to C1: with bar_width = 0 and bar_gap = 0 and a working
area of height at least 2, BarChart::render reaches the division
chart_area.width / (bar_width + bar_gap) on barchart.rs line 155 with a zero
divisor, and a u16 division by zero panics; the render does not complete. -/
theorem c1_zero_step_counterexample :
    BarChart.render (BarChart.mk none 0 0 none [("a", 1)]) (Rect.mk 0 0 3 3) = none := by
  rfl

/-- C1 (amended): with bar_width = 0 and bar_gap = 0, a working area of
height below 2 returns after only the background fill and the block
painting, with no bar, value or label write; a working area of height at
least 2 panics with a division by zero (modelled as none).  In neither case
is any bar rendered. -/
theorem c1_zero_step_amended (c : BarChart) (area : Rect)
    (hw : c.barWidth = 0) (hg : c.barGap = 0) :
    (2 ≤ (c.chartArea area).height → c.render area = none) ∧
    ((c.chartArea area).height < 2 →
      c.render area = some (c.emptyOut area) ∧
      (c.emptyOut area).barWrites = [] ∧
      (c.emptyOut area).valueWrites = [] ∧
      (c.emptyOut area).labelWrites = [] ∧
      (c.emptyOut area).scaled = []) := by
  constructor
  · intro h2
    have hlt : ¬(c.chartArea area).height < 2 := by omega
    simp [BarChart.render, hlt, hw, hg]
  · intro h2
    simp [BarChart.render, h2, BarChart.emptyOut]

/-- Witness for C1: the amended claim evaluated at a concrete degenerate
configuration, for a tall area (panic) and a height-1 area (early return). -/
theorem c1_zero_step_witness :
    BarChart.render (BarChart.mk none 0 0 none []) (Rect.mk 0 0 4 4) = none ∧
    BarChart.render (BarChart.mk none 0 0 none []) (Rect.mk 0 0 4 1) =
      some (BarChart.emptyOut (BarChart.mk none 0 0 none []) (Rect.mk 0 0 4 1)) := by
  constructor
  · exact (c1_zero_step_amended (BarChart.mk none 0 0 none []) (Rect.mk 0 0 4 4)
      rfl rfl).1 (by decide)
  · exact ((c1_zero_step_amended (BarChart.mk none 0 0 none []) (Rect.mk 0 0 4 1)
      rfl rfl).2 (by decide)).1

/-- Counterexample to C6: bar_width = 40000 and bar_gap = 30000 are legal
u16 values with bar_width + bar_gap > 0, but the u16 sum wraps to 4464, so
on a working width of 10000 the render lays out min(10000 / 4464, 5) = 2
bars, not min(10000 / 70000, 5) = 0 as the claim computes. -/
theorem c6_bar_count_counterexample :
    (BarChart.render
        (BarChart.mk none 40000 30000 (some 100)
          [("a", 1), ("b", 2), ("c", 3), ("d", 4), ("e", 5)])
        (Rect.mk 0 0 10000 2)).map (fun o => o.labelWrites.length) ≠
      some (min (10000 / (40000 + 30000)) 5) := by
  decide

/-- C6 (amended): for a working height of at least 2 and a nonzero wrapped
bar step wg = (bar_width + bar_gap) mod 2 ^ 16, the number of bars laid out
(one label write per selected bar, and one scaled entry) equals
min(floor(working_width / wg), data length).  When the wrapped step is 0 the
division panics, and when the working height is below 2 nothing is laid
out. -/
theorem c6_bar_count_amended (c : BarChart) (area : Rect) (out : BarOut)
    (hwg : (c.barWidth + c.barGap) % U16 ≠ 0)
    (h2 : 2 ≤ (c.chartArea area).height)
    (hr : c.render area = some out) :
    out.labelWrites.length =
      min ((c.chartArea area).width / ((c.barWidth + c.barGap) % U16)) c.data.length ∧
    out.scaled.length =
      min ((c.chartArea area).width / ((c.barWidth + c.barGap) % U16)) c.data.length := by
  have hlt : ¬(c.chartArea area).height < 2 := by omega
  have hout : out = c.mainOut area ((c.barWidth + c.barGap) % U16) := by
    simp [BarChart.render, hlt, hwg] at hr
    exact hr.symm
  subst hout
  simp only [BarChart.mainOut, length_withIdx, List.length_take, List.length_map]
  constructor <;> omega

/-- Witness for C6: the amended bar count evaluated on a concrete chart of
three entries with bar step 2 on a width-5 area: two bars are laid out. -/
theorem c6_bar_count_witness :
    (BarChart.mainOut (BarChart.mk none 1 1 none [("x", 3), ("y", 1), ("z", 9)])
        (Rect.mk 0 0 5 4) 2).labelWrites.length = min (5 / 2) 3 ∧
    (BarChart.mainOut (BarChart.mk none 1 1 none [("x", 3), ("y", 1), ("z", 9)])
        (Rect.mk 0 0 5 4) 2).scaled.length = min (5 / 2) 3 :=
  c6_bar_count_amended (BarChart.mk none 1 1 none [("x", 3), ("y", 1), ("z", 9)])
    (Rect.mk 0 0 5 4)
    (BarChart.mainOut (BarChart.mk none 1 1 none [("x", 3), ("y", 1), ("z", 9)])
      (Rect.mk 0 0 5 4) 2)
    (by decide) (by decide) rfl

/-- Counterexample to C4: for the u64 value 2 ^ 61 on a working height of 2
(one paintable row), the product value * 1 * 8 = 2 ^ 64 wraps to 0 in u64,
so the code scales the bar to 0 eighths, while the claim formula
v * (working_height - 1) * 8 / max(1, resolved_max) gives 8 (a full row). -/
theorem c4_scaling_counterexample :
    (BarChart.render (BarChart.mk none 1 0 none [("a", 2305843009213693952)])
        (Rect.mk 0 0 1 2)).map (fun o => o.scaled) = some [("a", 0)] ∧
    specScale 2305843009213693952 1
      (specResolvedMax (BarChart.mk none 1 0 none [("a", 2305843009213693952)])) = 8 ∧
    (0 : Nat) ≠ 8 := by
  refine ⟨by decide, by decide, by decide⟩

/-- C4 (amended): the resolved maximum is the explicit max when set and
otherwise the maximum of the data (0 when empty), and each selected value is
scaled to v * (working_height - 1) * 8 reduced modulo 2 ^ 64 (the u64
wrapping of the product), then divided (truncating) by max(1, resolved
maximum).  When the product stays below 2 ^ 64 this is exactly the claim
formula. -/
theorem c4_scaling_amended (c : BarChart) (area : Rect) (out : BarOut)
    (h2 : 2 ≤ (c.chartArea area).height)
    (hr : c.render area = some out) :
    c.resolvedMax = specResolvedMax c ∧
    out.scaled = (c.data.take
        (min ((c.chartArea area).width / ((c.barWidth + c.barGap) % U16))
          c.data.length)).map
      (fun p => (p.1, (p.2 * ((c.chartArea area).height - 1) * 8) % U64 /
        max 1 (specResolvedMax c))) := by
  have hmax : c.resolvedMax = specResolvedMax c := by
    unfold BarChart.resolvedMax specResolvedMax
    cases c.max with
    | some m => rfl
    | none => exact max?_getD_eq_foldr _
  refine ⟨hmax, ?_⟩
  have hlt : ¬(c.chartArea area).height < 2 := by omega
  rw [BarChart.render] at hr
  rw [if_neg hlt] at hr
  by_cases hwg : (c.barWidth + c.barGap) % U16 = 0
  · simp [hwg] at hr
  · simp only [hwg, if_neg, ite_false] at hr
    have hout : out = c.mainOut area ((c.barWidth + c.barGap) % U16) := by
      simp at hr
      exact hr.symm
    subst hout
    simp only [BarChart.mainOut, scaleBar_eq_single_mod, hmax]

/-- Witness for C4: the amended scaling evaluated on a concrete chart of two
small values with an implicit maximum. -/
theorem c4_scaling_witness :
    (BarChart.mk none 1 1 none [("u", 2), ("v", 4)]).resolvedMax =
      specResolvedMax (BarChart.mk none 1 1 none [("u", 2), ("v", 4)]) ∧
    (BarChart.mainOut (BarChart.mk none 1 1 none [("u", 2), ("v", 4)])
        (Rect.mk 0 0 4 3) 2).scaled =
      ((BarChart.mk none 1 1 none [("u", 2), ("v", 4)]).data.take
          (min ((BarChart.chartArea (BarChart.mk none 1 1 none [("u", 2), ("v", 4)])
              (Rect.mk 0 0 4 3)).width /
            (((BarChart.mk none 1 1 none [("u", 2), ("v", 4)]).barWidth +
                (BarChart.mk none 1 1 none [("u", 2), ("v", 4)]).barGap) % U16))
            (BarChart.mk none 1 1 none [("u", 2), ("v", 4)]).data.length)).map
        (fun p => (p.1, (p.2 * ((BarChart.chartArea (BarChart.mk none 1 1 none
            [("u", 2), ("v", 4)]) (Rect.mk 0 0 4 3)).height - 1) * 8) % U64 /
          max 1 (specResolvedMax (BarChart.mk none 1 1 none [("u", 2), ("v", 4)])))) :=
  c4_scaling_amended (BarChart.mk none 1 1 none [("u", 2), ("v", 4)])
    (Rect.mk 0 0 4 3)
    (BarChart.mainOut (BarChart.mk none 1 1 none [("u", 2), ("v", 4)])
      (Rect.mk 0 0 4 3) 2)
    (by decide) rfl

/-- Counterexample to C5: with explicit max 1 and value 10 on a working area
with 2 paintable rows, the column scales to 160 eighths but only
2 rows x 8 = 16 eighths are painted: the painted sum misses the scaled
height by 144, far beyond the rounding of one row (8 eighths). -/
theorem c5_eighth_stacking_counterexample :
    (BarChart.render (BarChart.mk none 1 0 (some 1) [("a", 10)])
        (Rect.mk 0 0 1 3)).map (fun o => o.scaled) = some [("a", 160)] ∧
    (colLevels 2 160).sum = 16 ∧
    ¬(160 - (colLevels 2 160).sum ≤ 8) := by
  refine ⟨by decide, by decide, by decide⟩

/-- C5 (amended): for every bar of BarChart and every column of Sparkline,
the sum of the filled eighths painted over the column's rows equals
min(scaled height, 8 x number of paintable rows): it reproduces the scaled
height exactly whenever the scaled height fits the column (in particular
whenever the value does not exceed the resolved maximum); a scaled height
beyond the column capacity is clipped to a fully filled column.  The stacking
shape holds as claimed: at most one row of a column carries a partial glyph,
and every row below a nonempty row is a full block. -/
theorem c5_eighth_stacking_amended :
    (∀ (c : BarChart) (area : Rect) (out : BarOut), c.render area = some out →
      ∀ p ∈ out.scaled,
        (colLevels (out.chartArea.height - 1) p.2).sum =
          min p.2 (8 * (out.chartArea.height - 1)) ∧
        (∀ r1 r2, 0 < levelAt p.2 r1 → levelAt p.2 r1 < 8 →
          0 < levelAt p.2 r2 → levelAt p.2 r2 < 8 → r1 = r2) ∧
        (∀ r1 r2, r2 < r1 → 0 < levelAt p.2 r1 → levelAt p.2 r2 = 8)) ∧
    (∀ (s : Sparkline) (area : Rect), ∀ d ∈ (s.render area).scaled,
      (colLevels (s.sparkArea area).height d).sum =
        min d (8 * (s.sparkArea area).height) ∧
      (∀ r1 r2, 0 < levelAt d r1 → levelAt d r1 < 8 →
        0 < levelAt d r2 → levelAt d r2 < 8 → r1 = r2) ∧
      (∀ r1 r2, r2 < r1 → 0 < levelAt d r1 → levelAt d r2 = 8)) := by
  constructor
  · intro c area out _ p _
    exact ⟨colLevels_sum _ _,
      fun r1 r2 h1 h2 h3 h4 => levelAt_partial_unique h1 h2 h3 h4,
      fun r1 r2 hlt h1 => levelAt_full_below hlt h1⟩
  · intro s area d _
    exact ⟨colLevels_sum _ _,
      fun r1 r2 h1 h2 h3 h4 => levelAt_partial_unique h1 h2 h3 h4,
      fun r1 r2 hlt h1 => levelAt_full_below hlt h1⟩

/-- Witness for C5: the amended stacking law evaluated for a bar scaled to
24 eighths over 3 rows (exactly conserved) and a sparkline column scaled to
8 eighths over 1 row. -/
theorem c5_eighth_stacking_witness :
    ((colLevels 3 24).sum = min 24 (8 * 3) ∧
      (∀ r1 r2, 0 < levelAt 24 r1 → levelAt 24 r1 < 8 →
        0 < levelAt 24 r2 → levelAt 24 r2 < 8 → r1 = r2) ∧
      (∀ r1 r2, r2 < r1 → 0 < levelAt 24 r1 → levelAt 24 r2 = 8)) ∧
    ((colLevels 1 8).sum = min 8 (8 * 1) ∧
      (∀ r1 r2, 0 < levelAt 8 r1 → levelAt 8 r1 < 8 →
        0 < levelAt 8 r2 → levelAt 8 r2 < 8 → r1 = r2) ∧
      (∀ r1 r2, r2 < r1 → 0 < levelAt 8 r1 → levelAt 8 r2 = 8)) := by
  constructor
  · exact c5_eighth_stacking_amended.1 (BarChart.mk none 1 1 none [("w", 11)])
      (Rect.mk 0 0 3 4)
      (BarChart.mainOut (BarChart.mk none 1 1 none [("w", 11)]) (Rect.mk 0 0 3 4) 2)
      rfl ("w", 24) (by decide)
  · exact c5_eighth_stacking_amended.2 (Sparkline.mk none [5] (some 5))
      (Rect.mk 0 0 1 1) 8 (by decide)

lemma mem_barColumnWrites {wr : BarCell} {x0 y0 w rows d : Nat} :
    wr ∈ barColumnWrites x0 y0 w rows d ↔
      ∃ r, r < rows ∧ ∃ xo, xo < w ∧
        wr = BarCell.mk (x0 + xo) (y0 + (rows - 1 - r)) (levelAt d r) := by
  simp only [barColumnWrites, List.mem_flatMap, List.mem_map, List.mem_range]
  constructor
  · rintro ⟨r, hr, xo, hxo, rfl⟩
    exact ⟨r, hr, xo, hxo, rfl⟩
  · rintro ⟨r, hr, xo, hxo, rfl⟩
    exact ⟨r, hr, xo, hxo, rfl⟩

/-- C8: for every sparkline whose max is explicitly 0, or whose max is unset
while all data values are 0, and every area of height at least 1, the render
completes (the embedded render is a total function: the division is guarded
by the max-nonzero check) and every scaled value is 0, so every cell write
carries the empty level-0 glyph. -/
theorem sparkline_zero_max_empty (s : Sparkline) (area : Rect)
    (_h1 : 1 ≤ area.height)
    (hm : s.max = some 0 ∨ (s.max = none ∧ ∀ v ∈ s.data, v = 0)) :
    (∀ d ∈ (s.render area).scaled, d = 0) ∧
    (∀ wr ∈ (s.render area).cellWrites, wr.level = 0) := by
  constructor
  · intro d hd
    rw [Sparkline.render] at hd
    split at hd
    · simp at hd
    · simp only [List.mem_map] at hd
      obtain ⟨v, hv, rfl⟩ := hd
      have hvdata : v ∈ s.data := List.mem_of_mem_take hv
      rcases hm with hm0 | ⟨hmn, hz⟩
      · simp [scaleSpark, Sparkline.resolvedMax, hm0]
      · have hv0 : v = 0 := hz v hvdata
        subst hv0
        simp [scaleSpark]
  · intro wr hwr
    rw [Sparkline.render] at hwr
    split at hwr
    · simp at hwr
    · simp only [List.mem_flatMap] at hwr
      obtain ⟨q, hq, hmem⟩ := hwr
      rw [mem_withIdx_zero] at hq
      have hq2 := List.getElem?_mem hq
      simp only [List.mem_map] at hq2
      obtain ⟨v, hv, hveq⟩ := hq2
      have hvdata : v ∈ s.data := List.mem_of_mem_take hv
      have hzero : q.2 = 0 := by
        rcases hm with hm0 | ⟨hmn, hz⟩
        · rw [← hveq]; simp [scaleSpark, Sparkline.resolvedMax, hm0]
        · have hv0 : v = 0 := hz v hvdata
          subst hv0; rw [← hveq]; simp [scaleSpark]
      rw [hzero, mem_barColumnWrites] at hmem
      obtain ⟨r, hr, xo, hxo, rfl⟩ := hmem
      simp [levelAt_zero]

/-- Witness for C8: the two sparkline regression scenarios of sparkline.rs
(all-zero data with unset max, and explicit zero max over nonzero data) on a
3 by 1 area: every scaled value and every written level is 0. -/
theorem sparkline_zero_max_empty_witness :
    ((∀ d ∈ ((Sparkline.mk none [0, 0, 0] none).render (Rect.mk 0 0 3 1)).scaled,
        d = 0) ∧
      (∀ wr ∈ ((Sparkline.mk none [0, 0, 0] none).render (Rect.mk 0 0 3 1)).cellWrites,
        wr.level = 0)) ∧
    ((∀ d ∈ ((Sparkline.mk none [0, 1, 2] (some 0)).render (Rect.mk 0 0 3 1)).scaled,
        d = 0) ∧
      (∀ wr ∈ ((Sparkline.mk none [0, 1, 2] (some 0)).render (Rect.mk 0 0 3 1)).cellWrites,
        wr.level = 0)) := by
  constructor
  · exact sparkline_zero_max_empty (Sparkline.mk none [0, 0, 0] none)
      (Rect.mk 0 0 3 1) (by decide) (Or.inr ⟨rfl, by decide⟩)
  · exact sparkline_zero_max_empty (Sparkline.mk none [0, 1, 2] (some 0))
      (Rect.mk 0 0 3 1) (by decide) (Or.inl rfl)

/-- C10: a sparkline without an attached container performs no block
painting and no whole-area background fill (the Sparkline render never calls
set_style on the area; the output carries no fill at all), and every cell it
writes sits at a column offset below min(working width, data length), inside
the area rows; columns at or beyond that bound receive no write. -/
theorem sparkline_untouched_columns (s : Sparkline) (area : Rect)
    (hb : s.block = none) :
    (s.render area).blockOut = none ∧
    (∀ wr ∈ (s.render area).cellWrites,
      area.left ≤ wr.x ∧ wr.x < area.left + min area.width s.data.length ∧
      area.top ≤ wr.y ∧ wr.y < area.bottom) := by
  have harea : s.sparkArea area = area := by
    simp [Sparkline.sparkArea, hb]
  constructor
  · rw [Sparkline.render]
    split <;> simp [hb]
  · intro wr hwr
    rw [Sparkline.render] at hwr
    split at hwr
    · simp at hwr
    · rename_i hge
      rw [harea] at hge
      simp only [List.mem_flatMap] at hwr
      obtain ⟨q, hq, hmem⟩ := hwr
      rw [mem_withIdx_zero] at hq
      have hlen : q.1 < min area.width s.data.length := by
        have h1 := List.getElem?_eq_some.mp hq
        obtain ⟨hlt, _⟩ := h1
        simp only [List.length_map, List.length_take, harea] at hlt
        omega
      rw [mem_barColumnWrites] at hmem
      obtain ⟨r, hr, xo, hxo, rfl⟩ := hmem
      simp only [harea] at *
      have hxo0 : xo = 0 := by omega
      subst hxo0
      simp only [Rect.left, Rect.top, Rect.bottom]
      omega

/-- Witness for C10: a sparkline of two points on a width-4 area writes only
in the two leftmost columns. -/
theorem sparkline_untouched_columns_witness :
    ((Sparkline.mk none [3, 1] (some 4)).render (Rect.mk 0 0 4 2)).blockOut = none ∧
    (∀ wr ∈ ((Sparkline.mk none [3, 1] (some 4)).render (Rect.mk 0 0 4 2)).cellWrites,
      (Rect.mk 0 0 4 2).left ≤ wr.x ∧
      wr.x < (Rect.mk 0 0 4 2).left + min (Rect.mk 0 0 4 2).width [3, 1].length ∧
      (Rect.mk 0 0 4 2).top ≤ wr.y ∧ wr.y < (Rect.mk 0 0 4 2).bottom) :=
  sparkline_untouched_columns (Sparkline.mk none [3, 1] (some 4))
    (Rect.mk 0 0 4 2) rfl

/-- Counterexample to C3: bar_width = 65534 and bar_gap = 3 are legal u16
values; their u16 sum wraps to 1, so on a width-1 working area one bar of
width 65534 is laid out and the value string write for value 7 is issued at
x = (65534 - 1) / 2 = 32766, far beyond the right edge of the working
rectangle (right = 1). -/
theorem c3_in_bounds_counterexample :
    (BarChart.render (BarChart.mk none 65534 3 none [("a", 7)])
        (Rect.mk 0 0 1 2)).map (fun o => o.valueWrites) =
      some [StrWrite.mk 0 32766 0 "7" 1] ∧
    ¬(32766 < (Rect.mk 0 0 1 2).right) := by
  refine ⟨by decide, by decide⟩

/-- C3 (amended): provided bar_width + bar_gap does not overflow u16 (the
exact sum is below 2 ^ 16), every grid-cell write issued by
BarChart::render - each bar-glyph cell, each cell of a value string and each
cell of a label string - lies inside the working rectangle; and every cell
write issued by Sparkline::render lies inside its working rectangle
unconditionally. -/
theorem c3_in_bounds_amended :
    (∀ (c : BarChart) (area : Rect) (out : BarOut),
      c.barWidth + c.barGap < U16 →
      c.render area = some out →
      (∀ wr ∈ out.barWrites,
        out.chartArea.left ≤ wr.x ∧ wr.x < out.chartArea.right ∧
        out.chartArea.top ≤ wr.y ∧ wr.y < out.chartArea.bottom) ∧
      (∀ wr ∈ out.valueWrites, ∀ k, k < wr.span →
        out.chartArea.left ≤ wr.x + k ∧ wr.x + k < out.chartArea.right ∧
        out.chartArea.top ≤ wr.y ∧ wr.y < out.chartArea.bottom) ∧
      (∀ wr ∈ out.labelWrites, ∀ k, k < wr.span →
        out.chartArea.left ≤ wr.x + k ∧ wr.x + k < out.chartArea.right ∧
        out.chartArea.top ≤ wr.y ∧ wr.y < out.chartArea.bottom)) ∧
    (∀ (s : Sparkline) (area : Rect), ∀ wr ∈ (s.render area).cellWrites,
      (s.sparkArea area).left ≤ wr.x ∧ wr.x < (s.sparkArea area).right ∧
      (s.sparkArea area).top ≤ wr.y ∧ wr.y < (s.sparkArea area).bottom) := by
  constructor
  · intro c area out hlow hr
    rw [BarChart.render] at hr
    split at hr
    · have hout : out = c.emptyOut area := by
        simp at hr
        exact hr.symm
      subst hout
      refine ⟨?_, ?_, ?_⟩ <;> intro wr hw <;> simp [BarChart.emptyOut] at hw
    · rename_i hh2
      by_cases hwg : (c.barWidth + c.barGap) % U16 = 0
      · simp [hwg] at hr
      · simp only [hwg, if_neg, ite_false] at hr
        have hout : out = c.mainOut area ((c.barWidth + c.barGap) % U16) := by
          simp at hr
          exact hr.symm
        subst hout
        have hwgid : (c.barWidth + c.barGap) % U16 = c.barWidth + c.barGap :=
          Nat.mod_eq_of_lt hlow
        have hwpos : 0 < (c.barWidth + c.barGap) % U16 := by omega
        have hwle : c.barWidth ≤ (c.barWidth + c.barGap) % U16 := by omega
        have hh : 2 ≤ (c.chartArea area).height := by omega
        simp only [BarChart.mainOut]
        refine ⟨?_, ?_, ?_⟩
        · intro wr hw
          simp only [List.mem_flatMap] at hw
          obtain ⟨q, hq, hmem⟩ := hw
          rw [mem_withIdx_zero] at hq
          obtain ⟨hlt, _⟩ := List.getElem?_eq_some.mp hq
          simp only [List.length_map, List.length_take] at hlt
          have hq1 : q.1 < (c.chartArea area).width / ((c.barWidth + c.barGap) % U16) := by
            omega
          rw [mem_barColumnWrites] at hmem
          obtain ⟨r, hrr, xo, hxo, rfl⟩ := hmem
          have hxb := bar_step_bound hwpos hwle hq1 hxo
          simp only [Rect.left, Rect.right, Rect.top, Rect.bottom]
          omega
        · intro wr hw k hk
          simp only [List.mem_filterMap] at hw
          obtain ⟨q, hq, hf⟩ := hw
          rw [mem_withIdx_zero] at hq
          obtain ⟨hlt, _⟩ := List.getElem?_eq_some.mp hq
          simp only [List.length_take] at hlt
          have hq1 : q.1 < (c.chartArea area).width / ((c.barWidth + c.barGap) % U16) := by
            omega
          split_ifs at hf with h1 h2
          · simp only [Option.some.injEq] at hf
            subst hf
            simp only at hk ⊢
            have hdiv : (c.barWidth - (Nat.repr q.2.2).length) / 2 ≤
                c.barWidth - (Nat.repr q.2.2).length := Nat.div_le_self _ _
            have hxo : (c.barWidth - (Nat.repr q.2.2).length) / 2 + k < c.barWidth := by
              omega
            have hxb := bar_step_bound hwpos hwle hq1 hxo
            simp only [Rect.left, Rect.right, Rect.top, Rect.bottom]
            omega
        · intro wr hw k hk
          simp only [List.mem_map] at hw
          obtain ⟨q, hq, rfl⟩ := hw
          rw [mem_withIdx_zero] at hq
          obtain ⟨hlt, _⟩ := List.getElem?_eq_some.mp hq
          simp only [List.length_take] at hlt
          have hq1 : q.1 < (c.chartArea area).width / ((c.barWidth + c.barGap) % U16) := by
            omega
          simp only at hk ⊢
          have hxo : k < c.barWidth := by omega
          have hxb := bar_step_bound hwpos hwle hq1 hxo
          simp only [Rect.left, Rect.right, Rect.top, Rect.bottom]
          omega
  · intro s area wr hwr
    rw [Sparkline.render] at hwr
    split at hwr
    · simp at hwr
    · rename_i hge
      simp only [List.mem_flatMap] at hwr
      obtain ⟨q, hq, hmem⟩ := hwr
      rw [mem_withIdx_zero] at hq
      obtain ⟨hlt, _⟩ := List.getElem?_eq_some.mp hq
      simp only [List.length_map, List.length_take] at hlt
      rw [mem_barColumnWrites] at hmem
      obtain ⟨r, hrr, xo, hxo, rfl⟩ := hmem
      have hxo0 : xo = 0 := by omega
      subst hxo0
      simp only [Rect.left, Rect.right, Rect.top, Rect.bottom]
      omega

/-- Witness for C3: a concrete bar-glyph cell of a two-column bar chart and
a concrete sparkline cell, both inside their working rectangles. -/
theorem c3_in_bounds_witness :
    ((BarChart.mainOut (BarChart.mk none 2 1 none [("ab", 5)]) (Rect.mk 0 0 4 4)
        3).chartArea.left ≤ (BarCell.mk 0 2 8).x ∧
      (BarCell.mk 0 2 8).x < (BarChart.mainOut (BarChart.mk none 2 1 none [("ab", 5)])
        (Rect.mk 0 0 4 4) 3).chartArea.right ∧
      (BarChart.mainOut (BarChart.mk none 2 1 none [("ab", 5)]) (Rect.mk 0 0 4 4)
        3).chartArea.top ≤ (BarCell.mk 0 2 8).y ∧
      (BarCell.mk 0 2 8).y < (BarChart.mainOut (BarChart.mk none 2 1 none [("ab", 5)])
        (Rect.mk 0 0 4 4) 3).chartArea.bottom) ∧
    (((Sparkline.mk none [2] (some 4)).sparkArea (Rect.mk 0 0 2 1)).left ≤
        (BarCell.mk 0 0 4).x ∧
      (BarCell.mk 0 0 4).x <
        ((Sparkline.mk none [2] (some 4)).sparkArea (Rect.mk 0 0 2 1)).right ∧
      ((Sparkline.mk none [2] (some 4)).sparkArea (Rect.mk 0 0 2 1)).top ≤
        (BarCell.mk 0 0 4).y ∧
      (BarCell.mk 0 0 4).y <
        ((Sparkline.mk none [2] (some 4)).sparkArea (Rect.mk 0 0 2 1)).bottom) := by
  constructor
  · exact (c3_in_bounds_amended.1 (BarChart.mk none 2 1 none [("ab", 5)])
      (Rect.mk 0 0 4 4)
      (BarChart.mainOut (BarChart.mk none 2 1 none [("ab", 5)]) (Rect.mk 0 0 4 4) 3)
      (by decide) rfl).1 (BarCell.mk 0 2 8) (by decide)
  · exact c3_in_bounds_amended.2 (Sparkline.mk none [2] (some 4)) (Rect.mk 0 0 2 1)
      (BarCell.mk 0 0 4) (by decide)

/-- C9: for every selected bar (index i into the selected prefix of the
data), a value-string write for that bar exists if and only if the value is
nonzero and the display width of its decimal rendering is strictly below
bar_width; any such write carries the decimal string, centered within the
bar on the row directly above the label row; and a label write on the bottom
row exists for the bar unconditionally, at the bar's left column. -/
theorem bar_value_label_rule (c : BarChart) (area : Rect) (out : BarOut)
    (h2 : 2 ≤ (c.chartArea area).height)
    (hr : c.render area = some out) :
    ∀ i l v,
      (c.data.take (min ((c.chartArea area).width /
          ((c.barWidth + c.barGap) % U16)) c.data.length))[i]? = some (l, v) →
      ((∃ wr ∈ out.valueWrites, wr.idx = i) ↔
        (v ≠ 0 ∧ (Nat.repr v).length < c.barWidth)) ∧
      (∀ wr ∈ out.valueWrites, wr.idx = i →
        wr.str = Nat.repr v ∧
        wr.x = (c.chartArea area).left + i * ((c.barWidth + c.barGap) % U16) +
          (c.barWidth - (Nat.repr v).length) / 2 ∧
        wr.y = (c.chartArea area).bottom - 2 ∧
        wr.span = (Nat.repr v).length) ∧
      (∃ wr ∈ out.labelWrites, wr.idx = i ∧ wr.str = l ∧
        wr.x = (c.chartArea area).left + i * ((c.barWidth + c.barGap) % U16) ∧
        wr.y = (c.chartArea area).bottom - 1) := by
  have hlt : ¬(c.chartArea area).height < 2 := by omega
  rw [BarChart.render] at hr
  rw [if_neg hlt] at hr
  by_cases hwg : (c.barWidth + c.barGap) % U16 = 0
  · simp [hwg] at hr
  · simp only [hwg, if_neg, ite_false] at hr
    have hout : out = c.mainOut area ((c.barWidth + c.barGap) % U16) := by
      simp at hr
      exact hr.symm
    subst hout
    intro i l v hi
    simp only [BarChart.mainOut]
    refine ⟨?_, ?_, ?_⟩
    · constructor
      · rintro ⟨wr, hwmem, hidx⟩
        simp only [List.mem_filterMap] at hwmem
        obtain ⟨q, hq, hf⟩ := hwmem
        rw [mem_withIdx_zero] at hq
        split_ifs at hf with h1 h2
        simp only [Option.some.injEq] at hf
        subst hf
        simp only at hidx
        rw [hidx] at hq
        rw [hq] at hi
        injection hi with hi2
        rw [hi2] at h1 h2
        exact ⟨h1, h2⟩
      · rintro ⟨hv0, hlen⟩
        refine ⟨⟨i, (c.chartArea area).left + i * ((c.barWidth + c.barGap) % U16) +
          (c.barWidth - (Nat.repr v).length) / 2, (c.chartArea area).bottom - 2,
          Nat.repr v, (Nat.repr v).length⟩, ?_, rfl⟩
        simp only [List.mem_filterMap]
        refine ⟨(i, (l, v)), mem_withIdx_zero.mpr hi, ?_⟩
        simp [hv0, hlen]
    · intro wr hwmem hidx
      simp only [List.mem_filterMap] at hwmem
      obtain ⟨q, hq, hf⟩ := hwmem
      rw [mem_withIdx_zero] at hq
      split_ifs at hf with h1 h2
      simp only [Option.some.injEq] at hf
      subst hf
      simp only at hidx ⊢
      rw [hidx] at hq
      rw [hq] at hi
      injection hi with hi2
      simp [hidx, hi2]
    · refine ⟨⟨i, (c.chartArea area).left + i * ((c.barWidth + c.barGap) % U16),
        (c.chartArea area).bottom - 1, l, min l.length c.barWidth⟩, ?_, rfl, rfl, rfl, rfl⟩
      simp only [List.mem_map]
      exact ⟨(i, (l, v)), mem_withIdx_zero.mpr hi, rfl⟩

/-- Witness for C9: the chart of the barchart doc example restricted to two
bars on an 8 by 5 area: bar 1 with value 2 gets its value string (width 1,
below bar_width 3) centered above the label row, and its label write. -/
theorem bar_value_label_rule_witness :
    ((∃ wr ∈ (BarChart.mainOut (BarChart.mk none 3 1 (some 4) [("B0", 0), ("B1", 2)])
        (Rect.mk 0 0 8 5) 4).valueWrites, wr.idx = 1) ↔
      ((2 : Nat) ≠ 0 ∧ (Nat.repr 2).length < 3)) ∧
    (∀ wr ∈ (BarChart.mainOut (BarChart.mk none 3 1 (some 4) [("B0", 0), ("B1", 2)])
        (Rect.mk 0 0 8 5) 4).valueWrites, wr.idx = 1 →
      wr.str = Nat.repr 2 ∧
      wr.x = 0 + 1 * 4 + (3 - (Nat.repr 2).length) / 2 ∧
      wr.y = 5 - 2 ∧
      wr.span = (Nat.repr 2).length) ∧
    (∃ wr ∈ (BarChart.mainOut (BarChart.mk none 3 1 (some 4) [("B0", 0), ("B1", 2)])
        (Rect.mk 0 0 8 5) 4).labelWrites, wr.idx = 1 ∧ wr.str = "B1" ∧
      wr.x = 0 + 1 * 4 ∧ wr.y = 5 - 1) :=
  bar_value_label_rule (BarChart.mk none 3 1 (some 4) [("B0", 0), ("B1", 2)])
    (Rect.mk 0 0 8 5)
    (BarChart.mainOut (BarChart.mk none 3 1 (some 4) [("B0", 0), ("B1", 2)])
      (Rect.mk 0 0 8 5) 4)
    (by decide) rfl 1 "B1" 2 (by decide)
